import Mathlib

/-!
Shallow embedding of the `serde-cs` Rust crate.

Strings are modelled as `List Char`, Rust `str::split(',')` as
`List.splitOn ','` (both produce one empty token per leading, trailing or
doubled separator, and a single empty token for the empty input), and
`Result<V, E>` as `Except E V`.  The wrapper structs `CS<T>` (a newtype
around `Vec<T>`) and `CS<T, N>` (a newtype around `[T; N]`) are modelled by
their payload lists, so `into_inner` is the identity.  Each of the three
source files (`lib.rs`, `vec.rs`, `array.rs`) gets its own namespace
(`LibCS`, `VecCS`, `ArrCS`) mirroring its impl blocks; the element type `T`
is a type parameter together with its `FromStr` function
(`p : List Char → Except E T`), its `Display` function
(`d : T → List Char`) and, for the array variant, its `Default` value.
-/

namespace SerdeCS

/-- The token pipeline `s.split(',').filter(|s| !s.is_empty())` shared by
every `from_str` implementation in the crate. -/
def csTokens (s : List Char) : List (List Char) :=
  (s.splitOn ',').filter (fun t => !t.isEmpty)

/-- `it.map(T::from_str).collect::<Result<Vec<_>, _>>()`: parse each token
left to right, aborting at the first failure. -/
def collectExcept {E T A : Type} (p : A → Except E T) : List A → Except E (List T)
  | [] => Except.ok []
  | x :: xs =>
    match p x with
    | Except.error e => Except.error e
    | Except.ok v =>
      match collectExcept p xs with
      | Except.error e => Except.error e
      | Except.ok vs => Except.ok (v :: vs)

/-- The tail of the `Display` loop: `write!(f, ",{}", v)` for each element
after the first. -/
def fmtTail {T : Type} (d : T → List Char) : List T → List Char
  | [] => []
  | v :: vs => (',' :: d v) ++ fmtTail d vs

/-- The serde data model restricted to what JSON can carry; used to state
what the `Serialize`/`Deserialize` impls do on the wire. -/
inductive JValue : Type where
  | str (s : List Char)
  | num (n : Int)
  | bool (b : Bool)
  | null
  | arr (xs : List JValue)
  | obj (fields : List (List Char × JValue))

/-- The two error kinds a deserialization can produce: the framework's
type-mismatch error (carrying the visitor's "expecting" phrase) and
`de::Error::custom` (carrying the `Display` rendering of `T::Err`). -/
inductive DeError : Type where
  | invalidType (found : JValue) (expected : List Char)
  | custom (msg : List Char)

/-- A serde visitor that only overrides `visit_str`; every other `visit_*`
default errors with `invalid_type` mentioning the `expecting` phrase. -/
structure Visitor (V : Type) where
  expectingMsg : List Char
  visitStr : List Char → Except DeError V

/-- `deserializer.deserialize_str(visitor)` against a self-describing JSON
value: a string is handed to `visit_str`; any other shape hits a default
visitor method and fails with the framework's type-mismatch error. -/
def deserializeStrJson {V : Type} (vis : Visitor V) : JValue → Except DeError V
  | JValue.str s => vis.visitStr s
  | j => Except.error (DeError.invalidType j vis.expectingMsg)

/-- The subset of the `ser::Serializer` interface the crate could touch:
a string primitive and a native sequence construct. -/
structure Serializer (Ok Err : Type) where
  serializeStr : List Char → Except Err Ok
  serializeSeq : List Ok → Except Err Ok

/-- The JSON backend: `serialize_str` produces a JSON string, never fails. -/
def jsonSerializer : Serializer JValue Empty :=
  ⟨fun s => Except.ok (JValue.str s), fun xs => Except.ok (JValue.arr xs)⟩

namespace LibCS

/-- `impl FromStr for CS<T>` in `lib.rs`: split on commas, drop empty
tokens, parse each token, collect into a `Vec` aborting at the first
failure. -/
def fromStr {E T : Type} (p : List Char → Except E T) (s : List Char) :
    Except E (List T) :=
  collectExcept p (csTokens s)

/-- `impl fmt::Display for CS<T>` in `lib.rs`: print the first element,
then `,{v}` for every further element. -/
def fmt {T : Type} (d : T → List Char) : List T → List Char
  | [] => []
  | v :: vs => d v ++ fmtTail d vs

/-- `impl ser::Serialize for CS<T>` in `lib.rs`:
`serializer.serialize_str(&self.to_string())`. -/
def serialize {T Ok Err : Type} (d : T → List Char) (vs : List T)
    (ser : Serializer Ok Err) : Except Err Ok :=
  ser.serializeStr (fmt d vs)

/-- The `expecting` phrase written by `CsVisitor` in `lib.rs`. -/
def expectingPhrase : List Char := String.toList "comma separeted list"

/-- `CsVisitor` from `lib.rs`: `visit_str` parses the string and wraps a
parse failure with `de::Error::custom`. -/
def csVisitor {E T : Type} (p : List Char → Except E T)
    (showE : E → List Char) : Visitor (List T) :=
  ⟨expectingPhrase, fun s =>
    match fromStr p s with
    | Except.ok v => Except.ok v
    | Except.error e => Except.error (DeError.custom (showE e))⟩

/-- `impl de::Deserialize for CS<T>` in `lib.rs`:
`deserializer.deserialize_str(CsVisitor(PhantomData))`. -/
def deserializeJson {E T : Type} (p : List Char → Except E T)
    (showE : E → List Char) (j : JValue) : Except DeError (List T) :=
  deserializeStrJson (csVisitor p showE) j

end LibCS

namespace VecCS

/-- `impl FromStr for CS<T>` in `vec.rs` (textually identical pipeline). -/
def fromStr {E T : Type} (p : List Char → Except E T) (s : List Char) :
    Except E (List T) :=
  collectExcept p (csTokens s)

/-- `impl fmt::Display for CS<T>` in `vec.rs`. -/
def fmt {T : Type} (d : T → List Char) : List T → List Char
  | [] => []
  | v :: vs => d v ++ fmtTail d vs

/-- `impl ser::Serialize for CS<T>` in `vec.rs`. -/
def serialize {T Ok Err : Type} (d : T → List Char) (vs : List T)
    (ser : Serializer Ok Err) : Except Err Ok :=
  ser.serializeStr (fmt d vs)

/-- The `expecting` phrase written by `CsVisitor` in `vec.rs`. -/
def expectingPhrase : List Char := String.toList "comma separeted list"

/-- `CsVisitor` from `vec.rs`. -/
def csVisitor {E T : Type} (p : List Char → Except E T)
    (showE : E → List Char) : Visitor (List T) :=
  ⟨expectingPhrase, fun s =>
    match fromStr p s with
    | Except.ok v => Except.ok v
    | Except.error e => Except.error (DeError.custom (showE e))⟩

/-- `impl de::Deserialize for CS<T>` in `vec.rs`. -/
def deserializeJson {E T : Type} (p : List Char → Except E T)
    (showE : E → List Char) (j : JValue) : Except DeError (List T) :=
  deserializeStrJson (csVisitor p showE) j

end VecCS

namespace ArrCS

/-- The `for (entry, s) in it_mut.zip(split)` loop of `array.rs`:
walk the slot list and the token list together, overwriting each visited
slot with the parsed token (aborting on a parse failure), and stop as soon
as either list runs out.  Unvisited slots keep their previous (default)
value; unvisited tokens are never parsed. -/
def fillZip {E T : Type} (p : List Char → Except E T) :
    List T → List (List Char) → Except E (List T)
  | arr, [] => Except.ok arr
  | [], _ :: _ => Except.ok []
  | _ :: arr, s :: ss =>
    match p s with
    | Except.error e => Except.error e
    | Except.ok v =>
      match fillZip p arr ss with
      | Except.error e => Except.error e
      | Except.ok rest => Except.ok (v :: rest)

/-- `impl FromStr for CS<T, N>` in `array.rs`: start from
`Self::default()` (`[T::default(); N]`) and run the zip loop over the
filtered tokens. -/
def fromStr {E T : Type} (dflt : T) (p : List Char → Except E T) (N : Nat)
    (s : List Char) : Except E (List T) :=
  fillZip p (List.replicate N dflt) (csTokens s)

/-- `impl fmt::Display for CS<T, N>` in `array.rs` (same loop as the
dynamic variant, over the `N`-element payload). -/
def fmt {T : Type} (d : T → List Char) : List T → List Char
  | [] => []
  | v :: vs => d v ++ fmtTail d vs

/-- `impl ser::Serialize for CS<T, N>` in `array.rs`. -/
def serialize {T Ok Err : Type} (d : T → List Char) (vs : List T)
    (ser : Serializer Ok Err) : Except Err Ok :=
  ser.serializeStr (fmt d vs)

/-- The `expecting` phrase written by `CsVisitor` in `array.rs`. -/
def expectingPhrase : List Char := String.toList "comma separeted list"

/-- `CsVisitor` from `array.rs`. -/
def csVisitor {E T : Type} (dflt : T) (p : List Char → Except E T)
    (showE : E → List Char) (N : Nat) : Visitor (List T) :=
  ⟨expectingPhrase, fun s =>
    match fromStr dflt p N s with
    | Except.ok v => Except.ok v
    | Except.error e => Except.error (DeError.custom (showE e))⟩

/-- `impl de::Deserialize for CS<T, N>` in `array.rs`. -/
def deserializeJson {E T : Type} (dflt : T) (p : List Char → Except E T)
    (showE : E → List Char) (N : Nat) (j : JValue) :
    Except DeError (List T) :=
  deserializeStrJson (csVisitor dflt p showE N) j

end ArrCS

/-- Reference parser, written from the specification text: split the input
on the comma character, discard every empty substring, parse each surviving
substring with the element parser, and collect the results in original
left-to-right order, failing if any element fails. -/
def parseRef {E T : Type} (p : List Char → Except E T) (s : List Char) :
    Except E (List T) :=
  ((s.splitOn ',').filter (fun t => decide (t ≠ []))).mapM p

/-- Decimal digit value, for the sample element type used in concrete
evaluations. -/
def digitVal (c : Char) : Option Nat :=
  if c.isDigit then some (c.toNat - 48) else none

/-- Accumulator loop of the sample decimal parser. -/
def parseNatGo : Nat → List Char → Except Unit Nat
  | acc, [] => Except.ok acc
  | acc, c :: cs =>
    match digitVal c with
    | none => Except.error ()
    | some v => parseNatGo (acc * 10 + v) cs

/-- A sample element parser (decimal `Nat`, rejecting the empty string and
any non-digit), standing in for `u32::from_str` in concrete evaluations. -/
def parseNat (s : List Char) : Except Unit Nat :=
  match s with
  | [] => Except.error ()
  | _ => parseNatGo 0 s

/-- A sample element `Display` (decimal rendering of `Nat`). -/
def dispNat (n : Nat) : List Char := Nat.toDigits 10 n

/-- Sample `Bool` display for concrete evaluations: `t` / `f`. -/
def dispBool (b : Bool) : List Char := if b then ['t'] else ['f']

/-- Sample `Bool` parser, the inverse of `dispBool`. -/
def parseBool (s : List Char) : Except Unit Bool :=
  if s = ['t'] then Except.ok true
  else if s = ['f'] then Except.ok false
  else Except.error ()

/-- A degenerate but legal element `Display` that renders every value as
the empty string (comma-free). -/
def dispEmpty (_ : Nat) : List Char := []

/-- A total element parser accepting every string as `0`, so that
`parseAny (dispEmpty t) = Except.ok t` holds at `t = 0`. -/
def parseAny (_ : List Char) : Except Unit Nat := Except.ok 0

/-- Display used in the formatting counterexample: `true` renders as `a`,
`false` renders as the empty string. -/
def dispHalf (b : Bool) : List Char := if b then ['a'] else []

/-- Rendering of `Unit` parse errors, standing in for `Display` of
`T::Err` in concrete deserialization statements. -/
def showUnit (_ : Unit) : List Char := ['!']

end SerdeCS

namespace SerdeCS

theorem collectExcept_eq_mapM {E T A : Type} (p : A → Except E T)
    (l : List A) : collectExcept p l = l.mapM p := by
  induction l with
  | nil => rfl
  | cons x xs ih =>
    rw [List.mapM_cons, collectExcept, ih]
    cases p x <;> cases hxs : xs.mapM p <;>
      simp [hxs, Except.bind, Bind.bind, Except.pure, Pure.pure]

theorem csTokens_eq_ref (s : List Char) :
    csTokens s = (s.splitOn ',').filter (fun t => decide (t ≠ [])) := by
  unfold csTokens
  refine List.filter_congr ?_
  intro t _
  cases t <;> simp

/-- The source `from_str` of `lib.rs` coincides with the parser written
from the specification text. -/
theorem fromStr_eq_parseRef {E T : Type} (p : List Char → Except E T)
    (s : List Char) : LibCS.fromStr p s = parseRef p s := by
  rw [LibCS.fromStr, collectExcept_eq_mapM, csTokens_eq_ref, parseRef]

theorem fmtTail_cons {T : Type} (d : T → List Char) (v : T) (vs : List T) :
    fmtTail d (v :: vs) = ',' :: LibCS.fmt d (v :: vs) := rfl

theorem fmt_eq_intercalate {T : Type} (d : T → List Char) (vs : List T) :
    LibCS.fmt d vs = List.intercalate [','] (vs.map d) := by
  induction vs with
  | nil => rfl
  | cons v vs ih =>
    cases vs with
    | nil => simp [LibCS.fmt, fmtTail, List.intercalate]
    | cons w ws =>
      rw [LibCS.fmt, fmtTail_cons, ih]
      simp [List.intercalate, List.intersperse]

theorem csTokens_fmt {T : Type} (d : T → List Char) (vs : List T)
    (hne : ∀ t ∈ vs, d t ≠ []) (hc : ∀ t ∈ vs, ',' ∉ d t) :
    csTokens (LibCS.fmt d vs) = vs.map d := by
  cases vs with
  | nil => rfl
  | cons v vs =>
    have hx : ∀ l ∈ (v :: vs).map d, ',' ∉ l := by
      intro l hl
      obtain ⟨t, ht, rfl⟩ := List.mem_map.mp hl
      exact hc t ht
    have hls : (v :: vs).map d ≠ [] := by simp
    rw [fmt_eq_intercalate, csTokens,
      List.splitOn_intercalate ((v :: vs).map d) ',' hx hls]
    refine List.filter_eq_self.mpr ?_
    intro a ha
    obtain ⟨t, ht, rfl⟩ := List.mem_map.mp ha
    have := hne t ht
    simpa using this

theorem collectExcept_map_ok {E T : Type} (p : List Char → Except E T)
    (d : T → List Char) (vs : List T)
    (h : ∀ t ∈ vs, p (d t) = Except.ok t) :
    collectExcept p (vs.map d) = Except.ok vs := by
  induction vs with
  | nil => rfl
  | cons v vs ih =>
    have hv := h v (List.mem_cons_self v vs)
    have hrest := ih fun t ht => h t (List.mem_cons_of_mem v ht)
    simp [collectExcept, hv, hrest]

theorem collectExcept_error_of_mem {E T A : Type} (p : A → Except E T)
    (l : List A) (x : A) (e : E) (hx : x ∈ l)
    (hp : p x = Except.error e) :
    ∃ e2, collectExcept p l = Except.error e2 := by
  induction l with
  | nil => cases hx
  | cons y ys ih =>
    rcases List.mem_cons.mp hx with rfl | hmem
    · exact ⟨e, by simp [collectExcept, hp]⟩
    · cases hy : p y with
      | error e3 => exact ⟨e3, by simp [collectExcept, hy]⟩
      | ok v =>
        obtain ⟨e2, h2⟩ := ih hmem
        exact ⟨e2, by simp [collectExcept, hy, h2]⟩

theorem fillZip_eq_collect_take {E T : Type} (p : List Char → Except E T)
    (arr : List T) : ∀ ts : List (List Char), arr.length ≤ ts.length →
    ArrCS.fillZip p arr ts = collectExcept p (ts.take arr.length) := by
  induction arr with
  | nil => intro ts _; cases ts <;> rfl
  | cons a arr ih =>
    intro ts h
    cases ts with
    | nil => simp at h
    | cons t ts =>
      have hrec := ih ts (Nat.le_of_succ_le_succ h)
      cases hp : p t <;> simp [ArrCS.fillZip, collectExcept, hp, hrec]

theorem fillZip_ok_of_le {E T : Type} (p : List Char → Except E T) :
    ∀ (ts : List (List Char)) (arr : List T) (vs : List T),
    ts.length ≤ arr.length → collectExcept p ts = Except.ok vs →
    ArrCS.fillZip p arr ts = Except.ok (vs ++ arr.drop ts.length) := by
  intro ts
  induction ts with
  | nil =>
    intro arr vs _ hc
    have : vs = [] := by simpa [collectExcept] using hc.symm
    subst this
    cases arr <;> simp [ArrCS.fillZip]
  | cons t ts ih =>
    intro arr vs hlen hc
    cases arr with
    | nil => simp at hlen
    | cons a arr =>
      cases hp : p t with
      | error e => simp [collectExcept, hp] at hc
      | ok v =>
        cases hcs : collectExcept p ts with
        | error e => simp [collectExcept, hp, hcs] at hc
        | ok vs2 =>
          have hvs : vs = v :: vs2 := by
            simpa [collectExcept, hp, hcs] using hc.symm
          subst hvs
          have hrec := ih arr vs2 (Nat.le_of_succ_le_succ hlen) hcs
          simp [ArrCS.fillZip, hp, hrec]

theorem fillZip_error_at {E T : Type} (p : List Char → Except E T)
    (arr : List T) : ∀ (ts : List (List Char)) (i : Nat)
    (ha : i < arr.length) (ht : i < ts.length) (e : E),
    p (ts.get ⟨i, ht⟩) = Except.error e →
    ∃ e2, ArrCS.fillZip p arr ts = Except.error e2 := by
  induction arr with
  | nil => intro ts i ha; simp at ha
  | cons a arr ih =>
    intro ts i ha ht e hp
    cases ts with
    | nil => simp at ht
    | cons t ts =>
      cases i with
      | zero =>
        exact ⟨e, by simp [ArrCS.fillZip, show p t = Except.error e from hp]⟩
      | succ i =>
        have hp2 : p (ts.get ⟨i, Nat.lt_of_succ_lt_succ ht⟩) =
            Except.error e := hp
        obtain ⟨e2, h2⟩ := ih ts i (Nat.lt_of_succ_lt_succ ha)
          (Nat.lt_of_succ_lt_succ ht) e hp2
        cases hpt : p t with
        | error e3 => exact ⟨e3, by simp [ArrCS.fillZip, hpt]⟩
        | ok v => exact ⟨e2, by simp [ArrCS.fillZip, hpt, h2]⟩

theorem getLast?_ne_comma (l : List Char) (h : ',' ∉ l) :
    l.getLast? ≠ some ',' := by
  intro hl
  exact h (List.mem_of_getLast?_eq_some hl)

theorem fmt_ne_nil {T : Type} (d : T → List Char) (v : T) (vs : List T)
    (h : d v ≠ []) : LibCS.fmt d (v :: vs) ≠ [] := by
  rw [LibCS.fmt]
  simp [h]

theorem fmt_head_ne_comma {T : Type} (d : T → List Char) (vs : List T)
    (h : ∀ t ∈ vs, d t ≠ [] ∧ ',' ∉ d t) :
    (LibCS.fmt d vs).head? ≠ some ',' := by
  cases vs with
  | nil => simp [LibCS.fmt]
  | cons v vs =>
    obtain ⟨hne, hc⟩ := h v (List.mem_cons_self v vs)
    rw [LibCS.fmt, List.head?_append]
    cases hd : d v with
    | nil => exact absurd hd hne
    | cons c cs =>
      intro hsome
      simp only [List.head?_cons, Option.or] at hsome
      have hcc : c = ',' := by injection hsome
      apply hc
      rw [hd, hcc]
      exact List.mem_cons_self _ _

theorem fmt_getLast_ne_comma {T : Type} (d : T → List Char) (vs : List T)
    (h : ∀ t ∈ vs, d t ≠ [] ∧ ',' ∉ d t) :
    (LibCS.fmt d vs).getLast? ≠ some ',' := by
  induction vs with
  | nil => simp [LibCS.fmt]
  | cons v vs ih =>
    cases vs with
    | nil =>
      obtain ⟨hne, hc⟩ := h v (List.mem_cons_self v [])
      have : LibCS.fmt d [v] = d v := by simp [LibCS.fmt, fmtTail]
      rw [this]
      exact getLast?_ne_comma _ hc
    | cons w ws =>
      have htail : ∀ t ∈ w :: ws, d t ≠ [] ∧ ',' ∉ d t :=
        fun t ht => h t (List.mem_cons_of_mem v ht)
      have hwne : LibCS.fmt d (w :: ws) ≠ [] :=
        fmt_ne_nil d w ws (htail w (List.mem_cons_self w ws)).1
      have hsome := List.getLast?_isSome.mpr hwne
      obtain ⟨x, hx⟩ := Option.isSome_iff_exists.mp hsome
      have hxne : x ≠ ',' := by
        intro hxx
        exact ih htail (by rw [hx, hxx])
      rw [LibCS.fmt, fmtTail_cons,
        show (',' :: LibCS.fmt d (w :: ws)) = [','] ++ LibCS.fmt d (w :: ws)
          from rfl,
        List.getLast?_append, List.getLast?_append, hx]
      simp [hxne]

theorem vec_fromStr_eq_lib {E T : Type} (p : List Char → Except E T)
    (s : List Char) : VecCS.fromStr p s = LibCS.fromStr p s := rfl

theorem vec_fmt_eq_lib {T : Type} (d : T → List Char) (vs : List T) :
    VecCS.fmt d vs = LibCS.fmt d vs := by
  cases vs <;> rfl

theorem arr_fmt_eq_lib {T : Type} (d : T → List Char) (vs : List T) :
    ArrCS.fmt d vs = LibCS.fmt d vs := by
  cases vs <;> rfl

/-- C1: for every input string, the dynamic-length wrapper's `from_str`
(both the `lib.rs` and the `vec.rs` implementation) equals the reference
parser written from the specification: split on the comma character,
discard every empty substring, parse each surviving substring with the
element parser, and return the results in original left-to-right order. -/
theorem c1_dynamic_fromStr_matches_reference {E T : Type}
    (p : List Char → Except E T) (s : List Char) :
    LibCS.fromStr p s = parseRef p s ∧ VecCS.fromStr p s = parseRef p s :=
  ⟨fromStr_eq_parseRef p s, fromStr_eq_parseRef p s⟩

/-- C2 counterexample: an element type whose rendering is empty (legal:
parseable, displayable, comma-free) breaks the round trip as stated.
With every element rendered as the empty string, `format [0] = ""`,
whose parse is `Except.ok []`, not `Except.ok [0]`. -/
theorem c2_roundtrip_counterexample :
    (∀ t ∈ [0], parseAny (dispEmpty t) = Except.ok t ∧ ',' ∉ dispEmpty t) ∧
    LibCS.fromStr parseAny (LibCS.fmt dispEmpty [0]) = Except.ok [] ∧
    ([] : List Nat) ≠ [0] := by
  refine ⟨?_, rfl, by decide⟩
  intro t ht
  have ht0 : t = 0 := List.mem_singleton.mp ht
  subst ht0
  exact ⟨rfl, by decide⟩

/-- C2 amended: for every sequence `v` of elements whose renderings are
parsed back by the element parser, contain no comma, and are non-empty,
`parse (format v) = Except.ok v` (so `into_inner` recovers `v` exactly,
order preserved) and therefore `format (parse (format v)) = format v`. -/
theorem c2_roundtrip (T E : Type) (d : T → List Char)
    (p : List Char → Except E T) (v : List T)
    (h : ∀ t ∈ v, p (d t) = Except.ok t ∧ ',' ∉ d t ∧ d t ≠ []) :
    LibCS.fromStr p (LibCS.fmt d v) = Except.ok v ∧
    (LibCS.fromStr p (LibCS.fmt d v)).map (fun w => LibCS.fmt d w) =
      Except.ok (LibCS.fmt d v) := by
  have hparse : LibCS.fromStr p (LibCS.fmt d v) = Except.ok v := by
    rw [LibCS.fromStr, csTokens_fmt d v (fun t ht => (h t ht).2.2)
      (fun t ht => (h t ht).2.1)]
    exact collectExcept_map_ok p d v fun t ht => (h t ht).1
  exact ⟨hparse, by rw [hparse]; rfl⟩

theorem c2_roundtrip_witness :
    LibCS.fromStr parseBool (LibCS.fmt dispBool [true, false]) =
      Except.ok [true, false] :=
  (c2_roundtrip Bool Unit dispBool parseBool [true, false]
    (by intro t ht; cases t <;> exact ⟨rfl, by decide, by decide⟩)).1

/-- C3 counterexample: the claim fails for the fixed-length wrapper when
the failing substring sits past position `N`.  Parsing `"1,a"` with
`N = 1` succeeds with `[1]` although the token `"a"` fails the element
parser, because tokens beyond the `N` slots are never parsed. -/
theorem c3_failure_position_counterexample :
    String.toList "a" ∈ csTokens (String.toList "1,a") ∧
    parseNat (String.toList "a") = Except.error () ∧
    ArrCS.fromStr 0 parseNat 1 (String.toList "1,a") = Except.ok [1] :=
  ⟨by decide, rfl, rfl⟩

/-- C3 amended: a token on which the element parser fails makes the
dynamic-length parse fail regardless of its position; for the fixed-length
wrapper this holds whenever the failing token is among the first `N`
filtered tokens. -/
theorem c3_failure_propagation :
    (∀ (E T : Type) (p : List Char → Except E T) (s x : List Char) (e : E),
      x ∈ csTokens s → p x = Except.error e →
      ∃ e2, LibCS.fromStr p s = Except.error e2) ∧
    (∀ (E T : Type) (p : List Char → Except E T) (s : List Char) (dflt : T)
      (N i : Nat) (e : E), i < N → (hi : i < (csTokens s).length) →
      p ((csTokens s).get ⟨i, hi⟩) = Except.error e →
      ∃ e2, ArrCS.fromStr dflt p N s = Except.error e2) := by
  constructor
  · intro E T p s x e hx hp
    exact collectExcept_error_of_mem p (csTokens s) x e hx hp
  · intro E T p s dflt N i e hN hi hp
    exact fillZip_error_at p (List.replicate N dflt) (csTokens s) i
      (by simpa using hN) hi e hp

theorem c3_failure_propagation_witness :
    (∃ e2, LibCS.fromStr parseNat (String.toList "1,a,2") =
      Except.error e2) ∧
    (∃ e2, ArrCS.fromStr 0 parseNat 3 (String.toList "a,1") =
      Except.error e2) :=
  ⟨c3_failure_propagation.1 Unit Nat parseNat (String.toList "1,a,2")
      (String.toList "a") () (by decide) rfl,
    c3_failure_propagation.2 Unit Nat parseNat (String.toList "a,1") 0 3 0 ()
      (by decide) (by decide) rfl⟩

/-- C4: when more than `N` tokens survive filtering and the first `N` all
parse successfully, the fixed-length parse succeeds with exactly those `N`
parsed elements in order; nothing past the first `N` tokens is consulted
(the hypotheses constrain only the first `N` tokens, so a malformed later
token cannot cause a failure). -/
theorem c4_fixed_truncation {E T : Type} (dflt : T)
    (p : List Char → Except E T) (N : Nat) (s : List Char) (vs : List T)
    (hk : N < (csTokens s).length)
    (hparse : collectExcept p ((csTokens s).take N) = Except.ok vs) :
    ArrCS.fromStr dflt p N s = Except.ok vs := by
  rw [ArrCS.fromStr, fillZip_eq_collect_take p _ _
    (by simpa using Nat.le_of_lt hk)]
  simpa using hparse

theorem c4_fixed_truncation_witness :
    ArrCS.fromStr 0 parseNat 3 (String.toList "1,2,3,4,5") =
      Except.ok [1, 2, 3] :=
  c4_fixed_truncation 0 parseNat 3 (String.toList "1,2,3,4,5") [1, 2, 3]
    (by decide) rfl

/-- C5: when fewer than `N` tokens survive filtering and all of them
parse, the fixed-length parse succeeds with the parsed elements in order
followed by default values in the remaining trailing slots (a string with
no surviving token, such as one made solely of commas, yields `N`
defaults). -/
theorem c5_fixed_fill {E T : Type} (dflt : T) (p : List Char → Except E T)
    (N : Nat) (s : List Char) (vs : List T)
    (hk : (csTokens s).length < N)
    (hparse : collectExcept p (csTokens s) = Except.ok vs) :
    ArrCS.fromStr dflt p N s =
      Except.ok (vs ++ List.replicate (N - (csTokens s).length) dflt) := by
  rw [ArrCS.fromStr, fillZip_ok_of_le p (csTokens s) (List.replicate N dflt)
    vs (by simpa using Nat.le_of_lt hk) hparse]
  simp

theorem c5_fixed_fill_witness :
    ArrCS.fromStr 0 parseNat 3 (String.toList "1,") =
      Except.ok ([1] ++
        List.replicate (3 - (csTokens (String.toList "1,")).length) 0) :=
  c5_fixed_fill 0 parseNat 3 (String.toList "1,") [1] (by decide) rfl

/-- C6 counterexample: an element rendering may itself be the empty
string, and then a trailing comma is emitted.  With `true ↦ "a"` and
`false ↦ ""`, formatting `[true, false]` yields `"a,"`, whose last
character is a comma. -/
theorem c6_format_counterexample :
    LibCS.fmt dispHalf [true, false] = [ 'a', ',' ] ∧
    (LibCS.fmt dispHalf [true, false]).getLast? = some ',' :=
  ⟨rfl, by decide⟩

/-- C6 amended: formatting is the total function joining the element
renderings with single commas (`List.intercalate`), the empty sequence
formats to the empty string, the output starts and ends with a comma only
if some rendering is empty or contains a comma, and the fixed-length
formatter applies the same join rule to all `N` renderings. -/
theorem c6_format_join :
    (∀ (T : Type) (d : T → List Char) (vs : List T),
      LibCS.fmt d vs = List.intercalate [','] (vs.map d)) ∧
    (∀ (T : Type) (d : T → List Char), LibCS.fmt d ([] : List T) = []) ∧
    (∀ (T : Type) (d : T → List Char) (vs : List T),
      (∀ t ∈ vs, d t ≠ [] ∧ ',' ∉ d t) →
      (LibCS.fmt d vs).head? ≠ some ',' ∧
      (LibCS.fmt d vs).getLast? ≠ some ',') ∧
    (∀ (T : Type) (d : T → List Char) (vs : List T),
      ArrCS.fmt d vs = List.intercalate [','] (vs.map d) ∧
      (vs.map d).length = vs.length) := by
  refine ⟨fun T d vs => fmt_eq_intercalate d vs, fun T d => rfl,
    fun T d vs h => ⟨fmt_head_ne_comma d vs h, fmt_getLast_ne_comma d vs h⟩,
    fun T d vs => ⟨?_, by simp⟩⟩
  rw [arr_fmt_eq_lib]
  exact fmt_eq_intercalate d vs

theorem c6_format_join_witness :
    (LibCS.fmt dispBool [true, false]).head? ≠ some ',' ∧
    (LibCS.fmt dispBool [true, false]).getLast? ≠ some ',' :=
  c6_format_join.2.2.1 Bool dispBool [true, false] (by decide)

/-- C7: serialization is the serializer's string-primitive call on the
formatted text, for any serializer, so it never uses the native sequence
construct; on the JSON backend it always succeeds and produces exactly the
JSON string holding the format-to-text output, never a JSON array. -/
theorem c7_serialize_shape :
    (∀ (T Ok Err : Type) (d : T → List Char) (vs : List T)
      (ser : Serializer Ok Err),
      LibCS.serialize d vs ser = ser.serializeStr (LibCS.fmt d vs) ∧
      ArrCS.serialize d vs ser = ser.serializeStr (ArrCS.fmt d vs)) ∧
    (∀ (T : Type) (d : T → List Char) (vs : List T),
      LibCS.serialize d vs jsonSerializer =
        Except.ok (JValue.str (LibCS.fmt d vs)) ∧
      ArrCS.serialize d vs jsonSerializer =
        Except.ok (JValue.str (ArrCS.fmt d vs)) ∧
      (∀ xs, LibCS.serialize d vs jsonSerializer ≠
        Except.ok (JValue.arr xs)) ∧
      (∀ xs, ArrCS.serialize d vs jsonSerializer ≠
        Except.ok (JValue.arr xs)) ∧
      (∃ j, LibCS.serialize d vs jsonSerializer = Except.ok j) ∧
      (∃ j, ArrCS.serialize d vs jsonSerializer = Except.ok j)) := by
  refine ⟨fun T Ok Err d vs ser => ⟨rfl, rfl⟩,
    fun T d vs => ⟨rfl, rfl, ?_, ?_, ⟨_, rfl⟩, ⟨_, rfl⟩⟩⟩
  · intro xs h
    simp [LibCS.serialize, jsonSerializer] at h
  · intro xs h
    simp [ArrCS.serialize, jsonSerializer] at h

theorem c7_serialize_shape_witness :
    LibCS.serialize dispNat [1, 2] jsonSerializer =
      Except.ok (JValue.str (LibCS.fmt dispNat [1, 2])) :=
  (c7_serialize_shape.2 Nat dispNat [1, 2]).1

/-- C8: deserializing any non-string JSON value into either wrapper fails
with the framework's type-mismatch error carrying the expecting phrase
(no element-wise coercion from an array), and deserializing a string whose
parse fails yields the custom error wrapping the rendered element-parse
error. -/
theorem c8_deserialize_shape :
    (∀ (E T : Type) (p : List Char → Except E T) (showE : E → List Char)
      (j : JValue), (∀ s, j ≠ JValue.str s) →
      LibCS.deserializeJson p showE j =
        Except.error (DeError.invalidType j LibCS.expectingPhrase)) ∧
    (∀ (E T : Type) (p : List Char → Except E T) (showE : E → List Char)
      (s : List Char) (e : E), LibCS.fromStr p s = Except.error e →
      LibCS.deserializeJson p showE (JValue.str s) =
        Except.error (DeError.custom (showE e))) ∧
    (∀ (E T : Type) (dflt : T) (p : List Char → Except E T)
      (showE : E → List Char) (N : Nat) (j : JValue),
      (∀ s, j ≠ JValue.str s) →
      ArrCS.deserializeJson dflt p showE N j =
        Except.error (DeError.invalidType j ArrCS.expectingPhrase)) ∧
    (∀ (E T : Type) (dflt : T) (p : List Char → Except E T)
      (showE : E → List Char) (N : Nat) (s : List Char) (e : E),
      ArrCS.fromStr dflt p N s = Except.error e →
      ArrCS.deserializeJson dflt p showE N (JValue.str s) =
        Except.error (DeError.custom (showE e))) := by
  refine ⟨?_, ?_, ?_, ?_⟩
  · intro E T p showE j hj
    cases j with
    | str s => exact absurd rfl (hj s)
    | num n => rfl
    | bool b => rfl
    | null => rfl
    | arr xs => rfl
    | obj fields => rfl
  · intro E T p showE s e he
    simp [LibCS.deserializeJson, deserializeStrJson, LibCS.csVisitor, he]
  · intro E T dflt p showE N j hj
    cases j with
    | str s => exact absurd rfl (hj s)
    | num n => rfl
    | bool b => rfl
    | null => rfl
    | arr xs => rfl
    | obj fields => rfl
  · intro E T dflt p showE N s e he
    simp [ArrCS.deserializeJson, deserializeStrJson, ArrCS.csVisitor, he]

theorem c8_deserialize_shape_witness :
    LibCS.deserializeJson parseNat showUnit (JValue.arr []) =
      Except.error (DeError.invalidType (JValue.arr [])
        LibCS.expectingPhrase) ∧
    LibCS.deserializeJson parseNat showUnit
        (JValue.str (String.toList "1,a")) =
      Except.error (DeError.custom (showUnit ())) ∧
    ArrCS.deserializeJson 0 parseNat showUnit 2 (JValue.num 7) =
      Except.error (DeError.invalidType (JValue.num 7)
        ArrCS.expectingPhrase) ∧
    ArrCS.deserializeJson 0 parseNat showUnit 2
        (JValue.str (String.toList "a")) =
      Except.error (DeError.custom (showUnit ())) :=
  ⟨c8_deserialize_shape.1 Unit Nat parseNat showUnit (JValue.arr [])
      (by intro s h; injection h),
    c8_deserialize_shape.2.1 Unit Nat parseNat showUnit
      (String.toList "1,a") () rfl,
    c8_deserialize_shape.2.2.1 Unit Nat 0 parseNat showUnit 2 (JValue.num 7)
      (by intro s h; injection h),
    c8_deserialize_shape.2.2.2 Unit Nat 0 parseNat showUnit 2
      (String.toList "a") () rfl⟩

/-- C9 counterexample: the expecting phrase surfaced by the deserializers
is not the text "comma separated list" claimed by the specification. -/
theorem c9_expecting_counterexample :
    LibCS.expectingPhrase ≠ String.toList "comma separated list" ∧
    VecCS.expectingPhrase ≠ String.toList "comma separated list" ∧
    ArrCS.expectingPhrase ≠ String.toList "comma separated list" := by
  refine ⟨by decide, by decide, by decide⟩

/-- C9 amended: the expecting phrase of all three visitors is the
verbatim (misspelled) text "comma separeted list", and this is the phrase
carried by the type-mismatch error when a wrong wire shape is presented. -/
theorem c9_expecting_phrase :
    LibCS.expectingPhrase = String.toList "comma separeted list" ∧
    VecCS.expectingPhrase = String.toList "comma separeted list" ∧
    ArrCS.expectingPhrase = String.toList "comma separeted list" ∧
    (∀ (E T : Type) (p : List Char → Except E T) (showE : E → List Char),
      LibCS.deserializeJson p showE JValue.null =
        Except.error (DeError.invalidType JValue.null
          (String.toList "comma separeted list"))) ∧
    (∀ (E T : Type) (dflt : T) (p : List Char → Except E T)
      (showE : E → List Char) (N : Nat),
      ArrCS.deserializeJson dflt p showE N JValue.null =
        Except.error (DeError.invalidType JValue.null
          (String.toList "comma separeted list"))) :=
  ⟨rfl, rfl, rfl, fun _ _ _ _ => rfl, fun _ _ _ _ _ _ => rfl⟩

/-- C10: the `vec.rs` dynamic wrapper and the `lib.rs` dynamic wrapper
agree on their whole shared interface: `from_str`, `Display`, `Serialize`
(over any serializer) and JSON `Deserialize` (including the expecting
phrase) coincide on all inputs. -/
theorem c10_vec_lib_equivalent :
    (∀ (E T : Type) (p : List Char → Except E T) (s : List Char),
      VecCS.fromStr p s = LibCS.fromStr p s) ∧
    (∀ (T : Type) (d : T → List Char) (vs : List T),
      VecCS.fmt d vs = LibCS.fmt d vs) ∧
    (∀ (T Ok Err : Type) (d : T → List Char) (vs : List T)
      (ser : Serializer Ok Err),
      VecCS.serialize d vs ser = LibCS.serialize d vs ser) ∧
    (∀ (E T : Type) (p : List Char → Except E T) (showE : E → List Char)
      (j : JValue),
      VecCS.deserializeJson p showE j = LibCS.deserializeJson p showE j) ∧
    VecCS.expectingPhrase = LibCS.expectingPhrase := by
  refine ⟨fun E T p s => rfl, fun T d vs => vec_fmt_eq_lib d vs, ?_, ?_, rfl⟩
  · intro T Ok Err d vs ser
    unfold VecCS.serialize LibCS.serialize
    rw [vec_fmt_eq_lib]
  · intro E T p showE j
    cases j <;> rfl

end SerdeCS
